import Mathlib

/-!
Verification of the epub.js location/pagelist indexing layer and the CFI
string scenario, against a shallow embedding of the repository's code.

Embedded source files:
* `src/unnamed/part_002` — the `Locations` class (generate / parse /
  locationFromCfi / percentageFromCfi / percentageFromLocation /
  cfiFromLocation / cfiFromPercentage / load / save).
* `src/src/pagelist.js` — the `PageList` class (process / pageFromCfi /
  pageFromPercentage / percentageFromPage).

The repository ships only the callers of `utils/core` (`locationOf`,
`indexOfSorted`, `sprint`) and of the `EpubCFI` class; those two modules are
not present under the source tree, so they are modelled from the spec
(sections 4.1, 4.2 and 6 of spec.md).  Every definition modelled that way
carries a doc comment starting with "Modelled from the spec:".

JavaScript numbers are embedded as `Int` (indices, pages, counters) and `ℚ`
(percentages).  JS `undefined` / `null` results are embedded as `none` of an
`Option` type.  DOM documents are embedded as the ordered list of text nodes
that `sprint` visits (document order walk over the body).
-/

/-- Modelled from the spec: `utils/core`'s `locationOf` is missing from the
source tree; spec section 4.2 describes it as an insertion-point search,
"returns insertion index assuming sorted ascending order, using binary
search".  On an ascending-sorted array the binary-search insertion index is
the length of the maximal ascending prefix of entries strictly below the
item, which is how it is embedded here.  The comparator returns a negative
number when its first argument sorts earlier. -/
def locationOf {α : Type} (cmp : α → α → Int) (item : α) (arr : List α) : Int :=
  ((arr.takeWhile (fun x => decide (cmp x item < 0))).length : Int)

/-- Modelled from the spec: `utils/core`'s `indexOfSorted` is missing from
the source tree; spec section 4.2 describes it as "a linear search
(`indexOfSorted`: exact match returning -1 if absent)".  It returns the
first index at which the comparator reports equality, and `-1` otherwise. -/
def indexOfSorted {α : Type} (cmp : α → α → Int) (item : α) (arr : List α) : Int :=
  match arr.findIdx? (fun x => decide (cmp x item = 0)) with
  | some i => (i : Int)
  | none => -1

/-- State of a `Locations` index (src/unnamed/part_002): the `_locations`
array of chunk-boundary CFIs and the `total` field.  The CFI entries are
kept abstract in the type `α`; queries receive the `EpubCFI.compare`
comparator as an explicit argument since the `EpubCFI` class is external to
the source tree. -/
structure LocationsState (α : Type) where
  locations : List α
  total : Int
deriving DecidableEq

namespace LocationsState

/-- `Locations.locationFromCfi` (src/unnamed/part_002 lines 398-415):
return `-1` on an empty index, otherwise the `locationOf` insertion index,
clamped down to `total` when it exceeds it. -/
def locationFromCfi {α : Type} (cmp : α → α → Int) (s : LocationsState α) (cfi : α) : Int :=
  if s.locations.length = 0 then -1
  else
    let loc := locationOf cmp cfi s.locations
    if loc > s.total then s.total else loc

/-- `Locations.percentageFromLocation` (src/unnamed/part_002 lines 448-454):
`if (!loc || !this.total) return 0; return loc / this.total;`.  The JS
falsy test on a number is an equality test against `0` here. -/
def percentageFromLocation {α : Type} (s : LocationsState α) (loc : Int) : ℚ :=
  if loc = 0 ∨ s.total = 0 then 0 else (loc : ℚ) / (s.total : ℚ)

/-- `Locations.percentageFromCfi` (src/unnamed/part_002 lines 428-436):
returns JS `null` (embedded as `none`) on an empty index, otherwise the
percentage of the located index. -/
def percentageFromCfi {α : Type} (cmp : α → α → Int) (s : LocationsState α) (cfi : α) :
    Option ℚ :=
  if s.locations.length = 0 then none
  else some (s.percentageFromLocation (s.locationFromCfi cmp cfi))

/-- `Locations.cfiFromLocation` (src/unnamed/part_002 lines 466-478): an
in-range location maps to the stored entry, anything else to the sentinel
`-1` (embedded as `none`, since the JS return type is a CFI-or-number
union). -/
def cfiFromLocation {α : Type} (s : LocationsState α) (loc : Int) : Option α :=
  if 0 ≤ loc ∧ loc < (s.locations.length : Int) then s.locations.get? loc.toNat else none

/-- `Locations.cfiFromPercentage` (src/unnamed/part_002 lines 490-505): for
a percentage at or above 1 the entry at index `total` is re-parsed,
collapsed to a point and restringified (the `EpubCFI` collapse is external
to the source tree, so it is passed in as `collapse`); below 1 the entry at
index `ceil(total * percentage)` is looked up via `cfiFromLocation`. -/
def cfiFromPercentage {α : Type} (collapse : α → α) (s : LocationsState α) (percentage : ℚ) :
    Option α :=
  if 1 ≤ percentage then (s.locations.get? s.total.toNat).map collapse
  else s.cfiFromLocation ⌈(s.total : ℚ) * percentage⌉

/-- `Locations.load` (src/unnamed/part_002 lines 518-526): accepts either a
serialized string (decoded by the external `JSON.parse`, abstracted as
`dec`) or the array itself, stores it as `_locations` and sets
`total = length - 1`. -/
def load {α σ : Type} (dec : σ → List α) (input : σ ⊕ List α) : LocationsState α :=
  let ls := match input with
    | Sum.inl str => dec str
    | Sum.inr arr => arr
  { locations := ls, total := (ls.length : Int) - 1 }

/-- `Locations.save` (src/unnamed/part_002 lines 538-540): serializes the
`_locations` array (the external `JSON.stringify` is abstracted as `enc`). -/
def save {α σ : Type} (enc : List α → σ) (s : LocationsState α) : σ :=
  enc s.locations

end LocationsState

/-- C2: `locationFromCfi` returns `-1` exactly on the empty index, and
otherwise the `locationOf` insertion index clamped to `total`.  The clamp
`if loc > total then total else loc` is the binary minimum. -/
theorem c2_locationFromCfi_spec {α : Type} (cmp : α → α → Int)
    (s : LocationsState α) (cfi : α) :
    (s.locations = [] → s.locationFromCfi cmp cfi = -1) ∧
    (s.locations ≠ [] →
      s.locationFromCfi cmp cfi = min (locationOf cmp cfi s.locations) s.total) := by
  constructor
  · intro h
    simp [LocationsState.locationFromCfi, h]
  · intro h
    have hlen : s.locations.length ≠ 0 := by
      simpa [List.length_eq_zero] using h
    simp only [LocationsState.locationFromCfi, hlen, if_false]
    rcases le_or_lt (locationOf cmp cfi s.locations) s.total with hle | hlt
    · rw [if_neg (not_lt.mpr hle), min_eq_left hle]
    · rw [if_pos hlt, min_eq_right hlt.le]

/-- C2 witness: a concrete two-entry index over `Nat` CFIs with the natural
comparator; the query sits between the entries, `locationOf` returns 1 and
no clamping is needed. -/
theorem c2_locationFromCfi_spec_witness :
    (LocationsState.mk [10, 30] 1).locationFromCfi
      (fun a b => if a < b then -1 else if b < a then 1 else 0) 20 =
      min (locationOf (fun a b => if a < b then -1 else if b < a then 1 else 0) 20 [10, 30]) 1 :=
  (c2_locationFromCfi_spec (fun a b => if a < b then -1 else if b < a then 1 else 0)
    (LocationsState.mk [10, 30] 1) 20).2 (by decide)

/-- C3: on a non-empty index whose `total` satisfies the class invariant
`total = length - 1`, `cfiFromPercentage` returns the stored entry at index
`ceil(total * p)` for `0 ≤ p < 1`, and for `p ≥ 1` the entry at index
`total` with the collapse applied; in both cases the lookup is in range
(the result is `some`, never the out-of-range sentinel). -/
theorem c3_cfiFromPercentage_spec {α : Type} (collapse : α → α)
    (s : LocationsState α) (p : ℚ)
    (hne : s.locations ≠ []) (hinv : s.total = (s.locations.length : Int) - 1)
    (hp : 0 ≤ p) :
    (p < 1 →
      s.cfiFromPercentage collapse p = s.locations.get? (⌈(s.total : ℚ) * p⌉).toNat ∧
      (s.cfiFromPercentage collapse p).isSome = true) ∧
    (1 ≤ p →
      s.cfiFromPercentage collapse p = (s.locations.get? s.total.toNat).map collapse ∧
      (s.cfiFromPercentage collapse p).isSome = true) := by
  have hlen : 0 < s.locations.length := List.length_pos.mpr hne
  have htot0 : 0 ≤ s.total := by omega
  constructor
  · intro hp1
    have hc0 : 0 ≤ ⌈(s.total : ℚ) * p⌉ := by
      apply Int.ceil_nonneg
      exact mul_nonneg (by exact_mod_cast htot0) hp
    have hcle : ⌈(s.total : ℚ) * p⌉ ≤ s.total := by
      rw [Int.ceil_le]
      calc (s.total : ℚ) * p ≤ (s.total : ℚ) * 1 :=
            mul_le_mul_of_nonneg_left hp1.le (by exact_mod_cast htot0)
        _ = ((s.total : Int) : ℚ) := by ring
    have hclt : ⌈(s.total : ℚ) * p⌉ < (s.locations.length : Int) := by omega
    have heq : s.cfiFromPercentage collapse p =
        s.locations.get? (⌈(s.total : ℚ) * p⌉).toNat := by
      rw [LocationsState.cfiFromPercentage, if_neg (not_le.mpr hp1),
        LocationsState.cfiFromLocation, if_pos ⟨hc0, hclt⟩]
    refine ⟨heq, ?_⟩
    rw [heq]
    have hnat : (⌈(s.total : ℚ) * p⌉).toNat < s.locations.length := by omega
    rw [List.get?_eq_get hnat]
    rfl
  · intro hp1
    have heq : s.cfiFromPercentage collapse p =
        (s.locations.get? s.total.toNat).map collapse := by
      rw [LocationsState.cfiFromPercentage, if_pos hp1]
    refine ⟨heq, ?_⟩
    rw [heq]
    have hnat : s.total.toNat < s.locations.length := by omega
    rw [List.get?_eq_get hnat]
    rfl

/-- C3 witness: a three-entry index with `total = 2`; at `p = 1/2` the claim
gives index `ceil(2 * 1/2) = 1`, and at `p = 1` the collapsed last entry. -/
theorem c3_cfiFromPercentage_spec_witness :
    (LocationsState.mk [10, 20, 30] 2).cfiFromPercentage id ((1 : ℚ) / 2) =
      [10, 20, 30].get? (⌈((2 : Int) : ℚ) * ((1 : ℚ) / 2)⌉).toNat ∧
    ((LocationsState.mk [10, 20, 30] 2).cfiFromPercentage id ((1 : ℚ) / 2)).isSome = true :=
  (c3_cfiFromPercentage_spec id (LocationsState.mk [10, 20, 30] 2) ((1 : ℚ) / 2)
    (by decide) (by decide) (by norm_num)).1 (by norm_num)

/-- C4 counterexample: the claim quantifies over every `LocationsState`, but
for the freshly constructed empty index (locations `[]`, total `0` — the
constructor state of src/unnamed/part_002 lines 44-46) the save/load
round-trip resets `total` to `-1`, and `percentageFromLocation 5` changes
from `0` to `5 / -1 = -5`: the round-trip does not preserve
`percentageFromLocation` behavior on all states. -/
theorem c4_roundtrip_cex :
    (LocationsState.load (fun (l : List Nat) => l)
        (Sum.inl ((LocationsState.mk ([] : List Nat) 0).save (fun l => l)))).percentageFromLocation
        5 ≠
      (LocationsState.mk ([] : List Nat) 0).percentageFromLocation 5 := by
  simp only [LocationsState.load, LocationsState.save, LocationsState.percentageFromLocation]
  norm_num

/-- C4 (amended): `load(save())` always reconstructs the exact `_locations`
sequence, and when the original state satisfies the class invariant
`total = length - 1` (which holds after `generate` and after `load`, though
not for the freshly-constructed state) the reconstructed index has
pointwise identical `locationFromCfi` and `percentageFromLocation`
behavior.  The external `JSON.stringify` / `JSON.parse` pair is abstracted
as `enc` / `dec` with the round-trip law as a hypothesis. -/
theorem c4_roundtrip_amended {α σ : Type} (cmp : α → α → Int)
    (enc : List α → σ) (dec : σ → List α) (s : LocationsState α)
    (h : dec (enc s.locations) = s.locations) :
    (LocationsState.load dec (Sum.inl (s.save enc))).locations = s.locations ∧
    (s.total = (s.locations.length : Int) - 1 →
      (∀ cfi, (LocationsState.load dec (Sum.inl (s.save enc))).locationFromCfi cmp cfi =
        s.locationFromCfi cmp cfi) ∧
      (∀ loc, (LocationsState.load dec (Sum.inl (s.save enc))).percentageFromLocation loc =
        s.percentageFromLocation loc)) := by
  have hload : LocationsState.load dec (Sum.inl (s.save enc)) =
      LocationsState.mk s.locations ((s.locations.length : Int) - 1) := by
    simp [LocationsState.load, LocationsState.save, h]
  refine ⟨by rw [hload], fun hinv => ?_⟩
  have hs : LocationsState.load dec (Sum.inl (s.save enc)) = s := by
    rw [hload]
    cases s with
    | mk ls t => simp at hinv; simp [hinv]
  exact ⟨fun cfi => by rw [hs], fun loc => by rw [hs]⟩

/-- C4 witness: a two-entry index with consistent `total = 1`, serialized
and reloaded through a concrete codec; both queries agree afterwards. -/
theorem c4_roundtrip_amended_witness :
    (LocationsState.load (fun (l : List Nat) => l)
        (Sum.inl ((LocationsState.mk [10, 30] 1).save (fun l => l)))).locations = [10, 30] ∧
    (LocationsState.load (fun (l : List Nat) => l)
        (Sum.inl ((LocationsState.mk [10, 30] 1).save (fun l => l)))).locationFromCfi
      (fun a b => if a < b then -1 else if b < a then 1 else 0) 20 =
      (LocationsState.mk [10, 30] 1).locationFromCfi
        (fun a b => if a < b then -1 else if b < a then 1 else 0) 20 ∧
    (LocationsState.load (fun (l : List Nat) => l)
        (Sum.inl ((LocationsState.mk [10, 30] 1).save (fun l => l)))).percentageFromLocation 1 =
      (LocationsState.mk [10, 30] 1).percentageFromLocation 1 := by
  have h := c4_roundtrip_amended (fun a b => if a < b then -1 else if b < a then 1 else 0)
    (fun l => l) (fun l => l) (LocationsState.mk [10, 30] 1) (by decide)
  exact ⟨h.1, (h.2 (by decide)).1 20, (h.2 (by decide)).2 1⟩

/-- One entry of the already-parsed page list handed to `PageList.process`
(src/src/pagelist.js): a page number and, when the href carried an
`epubcfi(...)` fragment, a CFI.  The JS falsy test `if (item.cfi)` is
embedded as an `Option`.  CFI values are abstract in `α`. -/
structure PageEntry (α : Type) where
  page : Int
  cfi : Option α
deriving DecidableEq

/-- State of a `PageList` index (src/src/pagelist.js): the parallel `pages`
and `locations` arrays and the `firstPage` / `lastPage` / `totalPages`
fields computed by `process`. -/
structure PageListState (α : Type) where
  pages : List Int
  locations : List α
  firstPage : Int
  lastPage : Int
  totalPages : Int
deriving DecidableEq

namespace PageListState

/-- `PageList.process` (src/src/pagelist.js lines 201-211): push each
entry's page, push its cfi when present, then
`firstPage = parseInt(pages[0])`, `lastPage = parseInt(pages[last])`,
`totalPages = lastPage - firstPage`.  `parseInt` of a number already stored
as an integer is the identity; on the empty list the JS fields would be
`NaN`, which has no `Int` embedding — the `headD 0` / `getLastD 0` defaults
are never exercised by the theorems, which all assume a non-empty page
list (the constructor only calls `process` on a non-empty parse result). -/
def process {α : Type} (entries : List (PageEntry α)) : PageListState α :=
  let pages := entries.map (fun e => e.page)
  { pages := pages
    locations := entries.filterMap (fun e => e.cfi)
    firstPage := pages.headD 0
    lastPage := pages.getLastD 0
    totalPages := pages.getLastD 0 - pages.headD 0 }

/-- `PageList.pageFromCfi` (src/src/pagelist.js lines 223-253): `-1` on an
empty index; a page looked up at the `indexOfSorted` exact-match position
when one exists (JS would yield `undefined`, embedded `none`, if the pages
array were shorter); otherwise the page just before the `locationOf`
insertion point, the first page when inserting at the front, and `-1` when
even that is `undefined`. -/
def pageFromCfi {α : Type} (cmp : α → α → Int) (s : PageListState α) (cfi : α) :
    Option Int :=
  if s.locations.length = 0 then some (-1)
  else
    let index := indexOfSorted cmp cfi s.locations
    if index ≠ -1 then s.pages.get? index.toNat
    else
      let loc := locationOf cmp cfi s.locations
      let pg := if loc - 1 ≥ 0 then s.pages.get? (loc - 1).toNat else s.pages.get? 0
      match pg with
      | some v => some v
      | none => some (-1)

/-- `PageList.pageFromPercentage` (src/src/pagelist.js lines 292-295):
`Math.round(totalPages * percent)`; JS `Math.round` is `⌊x + 1/2⌋`. -/
def pageFromPercentage {α : Type} (s : PageListState α) (percent : ℚ) : Int :=
  ⌊(s.totalPages : ℚ) * percent + 1 / 2⌋

/-- `PageList.percentageFromPage` (src/src/pagelist.js lines 307-310):
`(pg - firstPage) / totalPages` rounded to 3 decimal places via
`Math.round(percentage * 1000) / 1000`. -/
def percentageFromPage {α : Type} (s : PageListState α) (pg : Int) : ℚ :=
  ((⌊((pg - s.firstPage : Int) : ℚ) / (s.totalPages : ℚ) * 1000 + 1 / 2⌋ : Int) : ℚ) / 1000

end PageListState

/-- C6 counterexample: the claim asserts that all three empty-index queries
return `-1`, but `Locations.percentageFromCfi` on an empty index returns JS
`null` (src/unnamed/part_002 lines 429-431), embedded as `none`, not the
number `-1`. -/
theorem c6_empty_sentinel_cex :
    (LocationsState.mk ([] : List Nat) 0).percentageFromCfi (fun _ _ => 0) 7 ≠
      some (-1 : ℚ) := by
  simp [LocationsState.percentageFromCfi]

/-- C6 (amended): on indices holding zero entries,
`Locations.locationFromCfi` and `PageList.pageFromCfi` return the sentinel
`-1`, while `Locations.percentageFromCfi` returns `null` (embedded `none`)
rather than `-1`; none of the three throws. -/
theorem c6_empty_sentinel_amended {α : Type} (cmp : α → α → Int)
    (s : LocationsState α) (t : PageListState α) (cfi : α)
    (hs : s.locations = []) (ht : t.locations = []) :
    s.locationFromCfi cmp cfi = -1 ∧
    s.percentageFromCfi cmp cfi = none ∧
    t.pageFromCfi cmp cfi = some (-1) := by
  refine ⟨?_, ?_, ?_⟩
  · simp [LocationsState.locationFromCfi, hs]
  · simp [LocationsState.percentageFromCfi, hs]
  · simp [PageListState.pageFromCfi, ht]

/-- C6 witness: concrete empty `Locations` and `PageList` indices over
`Nat` CFIs. -/
theorem c6_empty_sentinel_amended_witness :
    (LocationsState.mk ([] : List Nat) 0).locationFromCfi (fun _ _ => 0) 3 = -1 ∧
    (LocationsState.mk ([] : List Nat) 0).percentageFromCfi (fun _ _ => 0) 3 = none ∧
    (PageListState.mk [] ([] : List Nat) 0 0 0).pageFromCfi (fun _ _ => 0) 3 = some (-1) :=
  c6_empty_sentinel_amended (fun _ _ => 0) (LocationsState.mk ([] : List Nat) 0)
    (PageListState.mk [] ([] : List Nat) 0 0 0) 3 rfl rfl

/-- C5: `pageFromCfi` returns `-1` on an empty index; on an exact
comparator match it returns the page stored at the matched position;
otherwise it returns the page of the entry immediately preceding the
`locationOf` insertion point (the first page when inserting before all
entries, `-1` when even that is missing).  The concrete scenario uses
`process` on entries `(page 1, cfi 10)` and `(page 2, cfi 30)` with the
natural-order comparator: cfi `10` gives page 1, cfi `30` gives page 2, and
the in-between cfi `20` gives page 1. -/
theorem c5_pageFromCfi_spec {α : Type} (cmp : α → α → Int)
    (s : PageListState α) (cfi : α) :
    (s.locations = [] → s.pageFromCfi cmp cfi = some (-1)) ∧
    (indexOfSorted cmp cfi s.locations ≠ -1 → s.locations ≠ [] →
      s.pageFromCfi cmp cfi = s.pages.get? (indexOfSorted cmp cfi s.locations).toNat) ∧
    (indexOfSorted cmp cfi s.locations = -1 → s.locations ≠ [] →
      s.pageFromCfi cmp cfi =
        some ((if locationOf cmp cfi s.locations - 1 ≥ 0 then
            s.pages.get? (locationOf cmp cfi s.locations - 1).toNat
          else s.pages.get? 0).getD (-1))) ∧
    (PageListState.process [PageEntry.mk 1 (some (10 : Nat)), PageEntry.mk 2 (some 30)]).pageFromCfi
        (fun a b => if a < b then -1 else if b < a then 1 else 0) 10 = some 1 ∧
    (PageListState.process [PageEntry.mk 1 (some (10 : Nat)), PageEntry.mk 2 (some 30)]).pageFromCfi
        (fun a b => if a < b then -1 else if b < a then 1 else 0) 30 = some 2 ∧
    (PageListState.process [PageEntry.mk 1 (some (10 : Nat)), PageEntry.mk 2 (some 30)]).pageFromCfi
        (fun a b => if a < b then -1 else if b < a then 1 else 0) 20 = some 1 := by
  have hlen : s.locations ≠ [] → ¬s.locations.length = 0 := by
    intro h
    simpa [List.length_eq_zero] using h
  refine ⟨?_, ?_, ?_, by decide, by decide, by decide⟩
  · intro h
    simp [PageListState.pageFromCfi, h]
  · intro hidx h
    simp [PageListState.pageFromCfi, hlen h, hidx]
  · intro hidx h
    simp only [PageListState.pageFromCfi, hlen h, if_false, hidx, ne_eq,
      not_true_eq_false, reduceIte]
    cases hpg : (if locationOf cmp cfi s.locations - 1 ≥ 0 then
        s.pages.get? (locationOf cmp cfi s.locations - 1).toNat
      else s.pages.get? 0) with
    | none => simp [hpg]
    | some v => simp [hpg]

/-- C5 witness: the exact-match branch instantiated on the scenario index
itself — querying cfi `30` matches position 1 and looks up `pages[1]`. -/
theorem c5_pageFromCfi_spec_witness :
    (PageListState.process [PageEntry.mk 1 (some (10 : Nat)), PageEntry.mk 2 (some 30)]).pageFromCfi
        (fun a b => if a < b then -1 else if b < a then 1 else 0) 30 =
      (PageListState.process
          [PageEntry.mk 1 (some (10 : Nat)), PageEntry.mk 2 (some 30)]).pages.get?
        (indexOfSorted (fun a b => if a < b then -1 else if b < a then 1 else 0) 30
          (PageListState.process
            [PageEntry.mk 1 (some (10 : Nat)), PageEntry.mk 2 (some 30)]).locations).toNat :=
  (c5_pageFromCfi_spec (fun a b => if a < b then -1 else if b < a then 1 else 0)
    (PageListState.process [PageEntry.mk 1 (some (10 : Nat)), PageEntry.mk 2 (some 30)]) 30).2.1
    (by decide) (by decide)

/-- The `firstPage` computed by `process` is the first entry's page. -/
theorem process_firstPage {α : Type} (entries : List (PageEntry α)) (h : entries ≠ []) :
    (PageListState.process entries).firstPage = (entries.head h).page := by
  obtain ⟨e, es, rfl⟩ := List.exists_cons_of_ne_nil h
  simp [PageListState.process]

/-- The `lastPage` computed by `process` is the last entry's page. -/
theorem process_lastPage {α : Type} (entries : List (PageEntry α)) (h : entries ≠ []) :
    (PageListState.process entries).lastPage = (entries.getLast h).page := by
  simp only [PageListState.process]
  rw [List.getLastD_eq_getLast?, List.getLast?_map, List.getLast?_eq_getLast _ h]
  rfl

/-- C7: for a `PageList` processed from a non-empty page list with first
page `f` and last page `l`, `totalPages = l - f`, `percentageFromPage pg`
is `(pg - f) / totalPages` rounded half-up to 3 decimal places, and
`pageFromPercentage percent` is `round(totalPages * percent)`. -/
theorem c7_pagelist_arithmetic {α : Type} (entries : List (PageEntry α))
    (h : entries ≠ []) (pg : Int) (percent : ℚ) :
    (PageListState.process entries).totalPages =
      (entries.getLast h).page - (entries.head h).page ∧
    (PageListState.process entries).percentageFromPage pg =
      ((⌊((pg - (entries.head h).page : Int) : ℚ) /
          (((entries.getLast h).page - (entries.head h).page : Int) : ℚ) * 1000 + 1 / 2⌋ :
        Int) : ℚ) / 1000 ∧
    (PageListState.process entries).pageFromPercentage percent =
      ⌊(((entries.getLast h).page - (entries.head h).page : Int) : ℚ) * percent + 1 / 2⌋ := by
  have hfirst := process_firstPage entries h
  have hlast := process_lastPage entries h
  have htot : (PageListState.process entries).totalPages =
      (entries.getLast h).page - (entries.head h).page := by
    have : (PageListState.process entries).totalPages =
        (PageListState.process entries).lastPage -
          (PageListState.process entries).firstPage := by
      simp [PageListState.process]
    rw [this, hfirst, hlast]
  refine ⟨htot, ?_, ?_⟩
  · rw [PageListState.percentageFromPage, hfirst, htot]
  · rw [PageListState.pageFromPercentage, htot]

/-- C7 witness: a concrete three-entry page list with pages 2, 5, 9
(`f = 2`, `l = 9`), queried at page 5 and percentage `1/4`. -/
theorem c7_pagelist_arithmetic_witness :
    (PageListState.process
        [PageEntry.mk 2 (some (10 : Nat)), PageEntry.mk 5 none,
          PageEntry.mk 9 (some 42)]).totalPages = (9 : Int) - 2 ∧
    (PageListState.process
        [PageEntry.mk 2 (some (10 : Nat)), PageEntry.mk 5 none,
          PageEntry.mk 9 (some 42)]).percentageFromPage 5 =
      ((⌊(((5 : Int) - 2 : Int) : ℚ) / (((9 : Int) - 2 : Int) : ℚ) * 1000 + 1 / 2⌋ :
        Int) : ℚ) / 1000 ∧
    (PageListState.process
        [PageEntry.mk 2 (some (10 : Nat)), PageEntry.mk 5 none,
          PageEntry.mk 9 (some 42)]).pageFromPercentage (1 / 4) =
      ⌊(((9 : Int) - 2 : Int) : ℚ) * (1 / 4) + 1 / 2⌋ :=
  c7_pagelist_arithmetic
    [PageEntry.mk 2 (some (10 : Nat)), PageEntry.mk 5 none, PageEntry.mk 9 (some 42)]
    (by decide) 5 (1 / 4)

/-- Composing the two half-up roundings of the PageList conversions: for a
positive page span `t` below 1000 the 3-decimal rounding error stays below
half a page, so rounding `t * round3(N / t)` recovers `N` exactly. -/
theorem round3_roundtrip (t N : Int) (ht : 0 < t) (ht2 : t < 1000) :
    ⌊(t : ℚ) * (((⌊(N : ℚ) / (t : ℚ) * 1000 + 1 / 2⌋ : Int) : ℚ) / 1000) + 1 / 2⌋ = N := by
  have ht' : (0 : ℚ) < (t : ℚ) := by exact_mod_cast ht
  have ht2' : (t : ℚ) < 1000 := by exact_mod_cast ht2
  have htne : (t : ℚ) ≠ 0 := ne_of_gt ht'
  set m : Int := ⌊(N : ℚ) / (t : ℚ) * 1000 + 1 / 2⌋ with hm
  have h1 : (m : ℚ) ≤ (N : ℚ) / (t : ℚ) * 1000 + 1 / 2 := Int.floor_le _
  have h2 : (N : ℚ) / (t : ℚ) * 1000 + 1 / 2 < (m : ℚ) + 1 := Int.lt_floor_add_one _
  have hcancel : (N : ℚ) / (t : ℚ) * (t : ℚ) = (N : ℚ) := div_mul_cancel₀ _ htne
  have key1 : (m : ℚ) * t ≤ (N : ℚ) * 1000 + (t : ℚ) / 2 := by
    have h1t := mul_le_mul_of_nonneg_right h1 ht'.le
    calc (m : ℚ) * t ≤ ((N : ℚ) / (t : ℚ) * 1000 + 1 / 2) * t := h1t
      _ = ((N : ℚ) / (t : ℚ) * (t : ℚ)) * 1000 + (t : ℚ) / 2 := by ring
      _ = (N : ℚ) * 1000 + (t : ℚ) / 2 := by rw [hcancel]
  have key2 : (N : ℚ) * 1000 + (t : ℚ) / 2 < (m : ℚ) * t + t := by
    have h2t := mul_lt_mul_of_pos_right h2 ht'
    calc (N : ℚ) * 1000 + (t : ℚ) / 2
        = ((N : ℚ) / (t : ℚ) * (t : ℚ)) * 1000 + (t : ℚ) / 2 := by rw [hcancel]
      _ = ((N : ℚ) / (t : ℚ) * 1000 + 1 / 2) * t := by ring
      _ < ((m : ℚ) + 1) * t := h2t
      _ = (m : ℚ) * t + t := by ring
  apply Int.floor_eq_iff.mpr
  constructor
  · nlinarith [key2, ht2']
  · nlinarith [key1, ht2']

/-- C10: the PageList page/percentage conversions are not mutually inverse:
for a processed page list with `firstPage = f > 0`, `lastPage = l`, a page
`f ≤ pg ≤ l`, and a positive page span below 1000 (so that the 3-decimal
rounding cannot shift the result), `pageFromPercentage (percentageFromPage
pg)` equals `pg - f` — never `pg`, because `pageFromPercentage` multiplies
`totalPages` by the percentage without adding `firstPage` back. -/
theorem c10_page_roundtrip_offset {α : Type} (entries : List (PageEntry α))
    (h : entries ≠ []) (pg : Int)
    (hf : 0 < (entries.head h).page)
    (hpg1 : (entries.head h).page ≤ pg) (hpg2 : pg ≤ (entries.getLast h).page)
    (hpos : 0 < (PageListState.process entries).totalPages)
    (hlt : (PageListState.process entries).totalPages < 1000) :
    (PageListState.process entries).pageFromPercentage
        ((PageListState.process entries).percentageFromPage pg) =
      pg - (entries.head h).page ∧
    (PageListState.process entries).pageFromPercentage
        ((PageListState.process entries).percentageFromPage pg) ≠ pg := by
  have hfirst := process_firstPage entries h
  have hval : (PageListState.process entries).pageFromPercentage
      ((PageListState.process entries).percentageFromPage pg) =
      pg - (entries.head h).page := by
    rw [PageListState.pageFromPercentage, PageListState.percentageFromPage, hfirst]
    exact round3_roundtrip (PageListState.process entries).totalPages
      (pg - (entries.head h).page) hpos hlt
  refine ⟨hval, ?_⟩
  rw [hval]
  omega

/-- C10 witness: pages 2 and 9 (`f = 2 > 0`, span 7): querying page 5,
`pageFromPercentage (percentageFromPage 5)` is `3 = 5 - 2`, not `5`. -/
theorem c10_page_roundtrip_offset_witness :
    (PageListState.process
        [PageEntry.mk 2 (some (10 : Nat)), PageEntry.mk 9 (some 42)]).pageFromPercentage
      ((PageListState.process
          [PageEntry.mk 2 (some (10 : Nat)), PageEntry.mk 9 (some 42)]).percentageFromPage 5) =
      (5 : Int) - 2 ∧
    (PageListState.process
        [PageEntry.mk 2 (some (10 : Nat)), PageEntry.mk 9 (some 42)]).pageFromPercentage
      ((PageListState.process
          [PageEntry.mk 2 (some (10 : Nat)), PageEntry.mk 9 (some 42)]).percentageFromPage 5) ≠
      5 :=
  c10_page_roundtrip_offset [PageEntry.mk 2 (some (10 : Nat)), PageEntry.mk 9 (some 42)]
    (by decide) 5 (by decide) (by decide) (by decide) (by decide) (by decide)

/-- A text node of a loaded spine document, as visited in document order by
the `sprint` walker of `utils/core` (external to the source tree; spec
section 4.4 describes the walk as "walk its text nodes in document order").
The `id` stands in for JS object identity; `content` is the node's
`textContent`. -/
structure TNode where
  id : Nat
  content : List Char
deriving DecidableEq

/-- `node.length` of a text node. -/
def TNode.len (n : TNode) : Nat := n.content.length

/-- The skip test `node.textContent.trim().length === 0`
(src/unnamed/part_002 line 141): the trimmed content is empty exactly when
every character is whitespace. -/
def TNode.wsOnly (n : TNode) : Bool := n.content.all (fun c => c.isWhitespace)

/-- The start half of the range being built by `Locations.parse`
(`createRange()` with `startContainer` / `startOffset` assigned,
src/unnamed/part_002 lines 101-108 and 146-150). -/
structure RangeStart where
  startContainer : TNode
  startOffset : Nat
deriving DecidableEq

/-- One emitted location boundary: the completed range plus the section's
`cfiBase`.  The source stringifies it via `new EpubCFI(range,
cfiBase).toString()`; the `EpubCFI` class is external to the source tree,
so the boundary is embedded as the range data itself (spec section 4.3:
CFI generation from a Range is injective up to the tree). -/
structure BoundaryCfi where
  rangeStart : Option RangeStart
  endContainer : TNode
  endOffset : Nat
  cfiBase : String
deriving DecidableEq

/-- The mutable state threaded through `Locations.parse`'s node walk: the
running character `counter`, the open `range`, the `prev` node, and the
accumulated `locations` array (src/unnamed/part_002 lines 128-209). -/
structure ParseState where
  counter : Nat
  range : Option RangeStart
  prev : Option TNode
  locs : List BoundaryCfi
deriving DecidableEq

/-- The `while (pos < len)` loop of `Locations.parse`
(src/unnamed/part_002 lines 161-193), fuel-indexed (the caller supplies
`2 * len + 2` fuel, enough for every iteration to either advance `pos` or
zero the counter).  Each iteration recomputes `dist = break - counter`;
when the counter is zero it advances `pos` by one and restarts the range
there; when the remaining distance fits in the node it adds the tail to
the counter and exits; otherwise it advances `pos` by `dist`, closes the
range there, emits a boundary CFI and resets the counter. -/
def parseRun (brk : Nat) (node : TNode) (base : String) :
    Nat → Nat → Nat → Option RangeStart → List BoundaryCfi →
    Nat × Option RangeStart × List BoundaryCfi
  | 0, _, counter, range, locs => (counter, range, locs)
  | fuel + 1, pos, counter, range, locs =>
    if pos < node.len then
      let dist := brk - counter
      let pos1 := if counter = 0 then pos + 1 else pos
      let range1 := if counter = 0 then some (RangeStart.mk node (pos + 1)) else range
      if node.len ≤ pos1 + dist then
        (counter + (node.len - pos1), range1, locs)
      else
        parseRun brk node base fuel (pos1 + dist) 0 range1
          (locs ++ [BoundaryCfi.mk range1 node (pos1 + dist) base])
    else (counter, range, locs)

/-- The per-node `parser` closure of `Locations.parse`
(src/unnamed/part_002 lines 136-195): skip whitespace-only nodes without
touching any state; otherwise open a range at offset 0 when the counter is
zero, skip the whole node when it fits below the break distance
(`dist > len`), and otherwise run the chunking loop; finally record the
node as `prev`. -/
def nodeVisit (brk : Nat) (base : String) (st : ParseState) (node : TNode) : ParseState :=
  if node.wsOnly then st
  else
    let range0 := if st.counter = 0 then some (RangeStart.mk node 0) else st.range
    let dist := brk - st.counter
    if node.len < dist then
      ParseState.mk (st.counter + node.len) range0 (some node) st.locs
    else
      let r := parseRun brk node base (2 * node.len + 2) 0 st.counter range0 st.locs
      ParseState.mk r.1 r.2.1 (some node) r.2.2

/-- `Locations.parse` over one document (src/unnamed/part_002 lines
128-209): fold the node visitor over the text nodes starting from a fresh
state (counter 0), then close the remaining range at the end of the last
visited node (`if (range && range.startContainer && prev)`, lines
200-206). -/
def parseDoc (brk : Nat) (base : String) (nodes : List TNode) : List BoundaryCfi :=
  let st := nodes.foldl (nodeVisit brk base) (ParseState.mk 0 none none [])
  match st.range, st.prev with
  | some r, some p => st.locs ++ [BoundaryCfi.mk (some r) p p.len base]
  | _, _ => st.locs

/-- A spine item as consumed by `Locations.generate`: the `linear` flag,
the precomputed `cfiBase`, and the document's text nodes (the result of
`section.load` plus the `sprint` walk, both external collaborators). -/
structure SpineSection where
  linear : Bool
  cfiBase : String
  textNodes : List TNode

/-- The chunk size used by `Locations.generate`: the constructor default is
150 (src/unnamed/part_002 line 48) and `generate(chars)` overrides it only
when `chars` is truthy (lines 73-75), so a missing argument — and the JS
falsy 0 — keep 150. -/
def effBreak : Option Nat → Nat
  | some n => if n = 0 then 150 else n
  | none => 150

/-- `Locations.generate` (src/unnamed/part_002 lines 72-99): enqueue a
processing task for each spine section whose `linear` flag is set, run the
queue in spine order concatenating each document's parsed boundaries into
`_locations`, and finally set `total = _locations.length - 1`. -/
def locationsGenerate (spine : List SpineSection) (chars : Option Nat) :
    LocationsState BoundaryCfi :=
  let brk := effBreak chars
  let tasks := spine.foldl (fun q s => if s.linear then q ++ [s] else q) ([] : List SpineSection)
  let locs := tasks.foldl (fun acc s => acc ++ parseDoc brk s.cfiBase s.textNodes)
    ([] : List BoundaryCfi)
  LocationsState.mk locs ((locs.length : Int) - 1)

/-- The task queue built by `generate` holds exactly the linear sections,
in spine order. -/
theorem generate_tasks_eq_filter (spine : List SpineSection) (q0 : List SpineSection) :
    spine.foldl (fun q s => if s.linear then q ++ [s] else q) q0 =
      q0 ++ spine.filter (fun s => s.linear) := by
  induction spine generalizing q0 with
  | nil => simp
  | cons s rest ih =>
    by_cases hs : s.linear
    · simp [hs, ih]
    · simp [hs, ih]

/-- Draining the queue concatenates each task's parse result in order. -/
theorem generate_drain_eq_join (tasks : List SpineSection) (brk : Nat)
    (acc : List BoundaryCfi) :
    tasks.foldl (fun acc s => acc ++ parseDoc brk s.cfiBase s.textNodes) acc =
      acc ++ (tasks.map (fun s => parseDoc brk s.cfiBase s.textNodes)).flatten := by
  induction tasks generalizing acc with
  | nil => simp
  | cons s rest ih => simp [ih]

/-- Whatever the loop does, it only ever appends to the locations list. -/
theorem parseRun_locs_mono (brk : Nat) (node : TNode) (base : String) :
    ∀ fuel pos counter range locs,
      ∃ t, (parseRun brk node base fuel pos counter range locs).2.2 = locs ++ t := by
  intro fuel
  induction fuel with
  | zero => exact fun pos counter range locs => ⟨[], by simp [parseRun]⟩
  | succ n ih =>
    intro pos counter range locs
    rw [parseRun]
    by_cases hp : pos < node.len
    · rw [if_pos hp]
      by_cases hfit : node.len ≤ (if counter = 0 then pos + 1 else pos) + (brk - counter)
      · exact ⟨[], by simp [hfit]⟩
      · simp only [hfit, if_false]
        obtain ⟨t, ht⟩ := ih ((if counter = 0 then pos + 1 else pos) + (brk - counter)) 0
          (if counter = 0 then some (RangeStart.mk node (pos + 1)) else range)
          (locs ++ [BoundaryCfi.mk (if counter = 0 then some (RangeStart.mk node (pos + 1))
            else range) node ((if counter = 0 then pos + 1 else pos) + (brk - counter)) base])
        exact ⟨_, by rw [ht, List.append_assoc]⟩
    · exact ⟨[], by simp [hp]⟩

/-- A node that, together with the incoming counter, stays strictly below
the break emits no boundary: the counter just absorbs the node's length
(and the range is opened at offset 0 when the counter was zero). -/
theorem nodeVisit_below_break (brk : Nat) (base : String) (st : ParseState) (node : TNode)
    (hws : node.wsOnly = false) (hlt : st.counter + node.len < brk) :
    nodeVisit brk base st node =
      ParseState.mk (st.counter + node.len)
        (if st.counter = 0 then some (RangeStart.mk node 0) else st.range)
        (some node) st.locs := by
  rw [nodeVisit]
  simp only [hws, Bool.false_eq_true, if_false]
  have hdist : node.len < brk - st.counter := by omega
  rw [if_pos hdist]

/-- When the incoming counter is non-zero and the node is long enough for
the running count to reach the break, the very next boundary is emitted at
offset `brk - counter` inside the node — i.e. exactly when the counter
reaches the chunk size. -/
theorem nodeVisit_reaches_break (brk : Nat) (base : String) (st : ParseState) (node : TNode)
    (hws : node.wsOnly = false) (hc : st.counter ≠ 0) (hlen : brk - st.counter < node.len) :
    ∃ rest, (nodeVisit brk base st node).locs =
      st.locs ++ BoundaryCfi.mk st.range node (brk - st.counter) base :: rest := by
  rw [nodeVisit]
  simp only [hws, Bool.false_eq_true, if_false]
  rw [if_neg (by omega : ¬node.len < brk - st.counter)]
  have hlen1 : 0 < node.len := by omega
  have hfuel : 2 * node.len + 2 = (2 * node.len + 1) + 1 := by omega
  rw [hfuel, parseRun, if_pos hlen1]
  simp only [hc, if_neg, reduceIte]
  rw [if_neg (by omega : ¬node.len ≤ 0 + (brk - st.counter))]
  obtain ⟨t, ht⟩ := parseRun_locs_mono brk node base (2 * node.len + 1)
    (0 + (brk - st.counter)) 0 st.range
    (st.locs ++ [BoundaryCfi.mk st.range node (0 + (brk - st.counter)) base])
  refine ⟨t, ?_⟩
  simpa using ht

/-- Whitespace-only nodes leave the parser state untouched. -/
theorem nodeVisit_ws (brk : Nat) (base : String) (st : ParseState) (node : TNode)
    (hws : node.wsOnly = true) : nodeVisit brk base st node = st := by
  rw [nodeVisit, if_pos hws]

/-- C1: the location-index generation (a) records boundaries only from
spine items with the `linear` flag, concatenating each linear document's
parse in spine order, each parse starting from a fresh counter of 0 — so
the counter is reset per document and non-linear items contribute nothing;
(b) uses chunk size 150 when `generate` receives no argument; (c) a
whitespace-only text node (trimmed content empty) contributes nothing: the
parse of any document equals the parse with that node removed; (d) a
non-whitespace node that keeps the running counter strictly below the
chunk size emits no boundary and the counter persists across the node
boundary, accumulating the node's length; (e) when the counter is non-zero
and the node lets the running count reach the chunk size, a boundary CFI
is emitted at the exact offset at which the counter reaches it
(`brk - counter` characters into the node), the counter restarting there. -/
theorem c1_generate_spec :
    (∀ (spine : List SpineSection) (chars : Option Nat),
      (locationsGenerate spine chars).locations =
        ((spine.filter (fun s => s.linear)).map
          (fun s => parseDoc (effBreak chars) s.cfiBase s.textNodes)).flatten) ∧
    effBreak none = 150 ∧
    (∀ (brk : Nat) (base : String) (pre post : List TNode) (w : TNode),
      w.wsOnly = true →
      parseDoc brk base (pre ++ w :: post) = parseDoc brk base (pre ++ post)) ∧
    (∀ (brk : Nat) (base : String) (st : ParseState) (node : TNode),
      node.wsOnly = false → st.counter + node.len < brk →
      nodeVisit brk base st node =
        ParseState.mk (st.counter + node.len)
          (if st.counter = 0 then some (RangeStart.mk node 0) else st.range)
          (some node) st.locs) ∧
    (∀ (brk : Nat) (base : String) (st : ParseState) (node : TNode),
      node.wsOnly = false → st.counter ≠ 0 → brk - st.counter < node.len →
      ∃ rest, (nodeVisit brk base st node).locs =
        st.locs ++ BoundaryCfi.mk st.range node (brk - st.counter) base :: rest) := by
  refine ⟨?_, rfl, ?_, nodeVisit_below_break, nodeVisit_reaches_break⟩
  · intro spine chars
    rw [locationsGenerate]
    simp only
    rw [generate_tasks_eq_filter, generate_drain_eq_join]
    simp
  · intro brk base pre post w hw
    rw [parseDoc, parseDoc, List.foldl_append, List.foldl_cons, nodeVisit_ws brk base _ w hw,
      ← List.foldl_append]

/-- C1 witness: concrete instances of each part — a two-section spine
(one linear, one not) generated with no chunk argument; a whitespace-only
node inserted between two text nodes; a 3-character node absorbed below a
break of 5; and a node that lets a counter of 3 reach the break of 5 two
characters in. -/
theorem c1_generate_spec_witness :
    (locationsGenerate
        [SpineSection.mk true "b1" [TNode.mk 0 ['a', 'b', 'c']],
          SpineSection.mk false "b2" [TNode.mk 1 ['x', 'y']]] none).locations =
      (([SpineSection.mk true "b1" [TNode.mk 0 ['a', 'b', 'c']],
          SpineSection.mk false "b2" [TNode.mk 1 ['x', 'y']]].filter
            (fun s => s.linear)).map
        (fun s => parseDoc (effBreak none) s.cfiBase s.textNodes)).flatten ∧
    parseDoc 5 "b" ([TNode.mk 0 ['a', 'b', 'c']] ++ TNode.mk 1 [' '] ::
        [TNode.mk 2 ['d', 'e']]) =
      parseDoc 5 "b" ([TNode.mk 0 ['a', 'b', 'c']] ++ [TNode.mk 2 ['d', 'e']]) ∧
    nodeVisit 5 "b" (ParseState.mk 0 none none []) (TNode.mk 0 ['a', 'b', 'c']) =
      ParseState.mk 3 (some (RangeStart.mk (TNode.mk 0 ['a', 'b', 'c']) 0))
        (some (TNode.mk 0 ['a', 'b', 'c'])) [] ∧
    (∃ rest, (nodeVisit 5 "b"
        (ParseState.mk 3 (some (RangeStart.mk (TNode.mk 0 ['a', 'b', 'c']) 0))
          (some (TNode.mk 0 ['a', 'b', 'c'])) [])
        (TNode.mk 2 ['d', 'e', 'f', 'g'])).locs =
      [] ++ BoundaryCfi.mk (some (RangeStart.mk (TNode.mk 0 ['a', 'b', 'c']) 0))
        (TNode.mk 2 ['d', 'e', 'f', 'g']) (5 - 3) "b" :: rest) := by
  have h := c1_generate_spec
  refine ⟨h.1 _ none, h.2.2.1 5 "b" [TNode.mk 0 ['a', 'b', 'c']] [TNode.mk 2 ['d', 'e']]
    (TNode.mk 1 [' ']) (by decide), ?_, ?_⟩
  · exact h.2.2.2.1 5 "b" (ParseState.mk 0 none none []) (TNode.mk 0 ['a', 'b', 'c'])
      (by decide) (by decide)
  · exact h.2.2.2.2 5 "b"
      (ParseState.mk 3 (some (RangeStart.mk (TNode.mk 0 ['a', 'b', 'c']) 0))
        (some (TNode.mk 0 ['a', 'b', 'c'])) [])
      (TNode.mk 2 ['d', 'e', 'f', 'g']) (by decide) (by decide) (by decide)

/-- C9: `total` always equals the entry count minus one after `generate`
and after every `load`; `percentageFromLocation` divides by it, so on a
state satisfying that invariant (with non-zero `total`) the last stored
entry — whose location index is `total` — maps to percentage 1, and an
index loaded with exactly one entry has `total = 0` and percentage 0 at
every location. -/
theorem c9_total_invariant :
    (∀ (spine : List SpineSection) (chars : Option Nat),
      (locationsGenerate spine chars).total =
        ((locationsGenerate spine chars).locations.length : Int) - 1) ∧
    (∀ {α σ : Type} (dec : σ → List α) (input : σ ⊕ List α),
      (LocationsState.load dec input).total =
        ((LocationsState.load dec input).locations.length : Int) - 1) ∧
    (∀ {α : Type} (s : LocationsState α),
      s.total = (s.locations.length : Int) - 1 → s.total ≠ 0 →
      s.percentageFromLocation s.total = 1) ∧
    (∀ {α σ : Type} (dec : σ → List α) (x : α),
      (LocationsState.load dec (Sum.inr [x])).total = 0 ∧
      ∀ loc, (LocationsState.load dec (Sum.inr [x])).percentageFromLocation loc = 0) := by
  refine ⟨fun spine chars => rfl, fun dec input => rfl, ?_, ?_⟩
  · intro α s _hinv htot
    rw [LocationsState.percentageFromLocation, if_neg (by simp [htot])]
    have : ((s.total : ℚ)) ≠ 0 := by exact_mod_cast htot
    exact div_self this
  · intro α σ dec x
    refine ⟨rfl, fun loc => ?_⟩
    rw [LocationsState.percentageFromLocation]
    simp [LocationsState.load]

/-- C9 witness: the generate run of the C1 witness spine, a concrete
two-entry load, the percentage of the last entry of a two-entry index, and
a one-entry load. -/
theorem c9_total_invariant_witness :
    (locationsGenerate [SpineSection.mk true "b1" [TNode.mk 0 ['a', 'b', 'c']]] none).total =
      ((locationsGenerate
        [SpineSection.mk true "b1" [TNode.mk 0 ['a', 'b', 'c']]] none).locations.length :
          Int) - 1 ∧
    (LocationsState.load (fun (l : List Nat) => l) (Sum.inr [10, 30])).total =
      ((LocationsState.load (fun (l : List Nat) => l)
        (Sum.inr [10, 30])).locations.length : Int) - 1 ∧
    (LocationsState.mk [10, 30] 1).percentageFromLocation 1 = 1 ∧
    (LocationsState.load (fun (l : List Nat) => l) (Sum.inr [10])).total = 0 ∧
    (LocationsState.load (fun (l : List Nat) => l)
      (Sum.inr [10])).percentageFromLocation 7 = 0 := by
  have h := c9_total_invariant
  exact ⟨h.1 _ none, h.2.1 _ _, h.2.2.1 (LocationsState.mk [10, 30] 1) (by decide) (by decide),
    (h.2.2.2 (fun (l : List Nat) => l) 10).1, (h.2.2.2 (fun (l : List Nat) => l) 10).2 7⟩

/-- Split a character list at every occurrence of a separator. -/
def splitOnChar (sep : Char) : List Char → List (List Char)
  | [] => [[]]
  | c :: cs =>
    if c = sep then [] :: splitOnChar sep cs
    else
      match splitOnChar sep cs with
      | [] => [[c]]
      | h :: t => (c :: h) :: t

/-- Decimal value of a digit run. -/
def digitsToNat (l : List Char) : Nat :=
  l.foldl (fun a c => a * 10 + (c.toNat - '0'.toNat)) 0

/-- Modelled from the spec: one navigation step of a CFI path (spec
section 3 "Step" and section 4.1 grammar; the `EpubCFI` class itself is
missing from the source tree).  Even raw integers denote element children
at `raw / 2 - 1`, odd ones denote virtual text-node positions; the
bracket assertion is an `id` check, optionally carrying a trailing
`;s=a` / `;s=b` side-bias suffix. -/
structure CfiStep where
  isText : Bool
  index : Int
  idAssert : Option (List Char)
  sideBias : Option Char
deriving DecidableEq

/-- Modelled from the spec: one `/`-path of a CFI with its optional
terminal character offset (spec section 4.1: "A terminal step may carry
`:OFFSET`"). -/
structure CfiComponent where
  steps : List CfiStep
  offset : Option Int
deriving DecidableEq

/-- Modelled from the spec: the engine-level CFI value (spec section 3):
the `!`-separated path components, the optional range tails, the `range`
flag and `spinePos` derived from the spine-container step (the second step
of the spine path, under the even-integer convention `raw / 2 - 1` of
section 4.1 — for `/6/4[chap01ref]` this gives 1, matching the repository's
own documented example in src/src/spine.js lines 158-168, where `get` on
that CFI resolves to the spine item with `index: 1`). -/
structure ParsedCfi where
  components : List CfiComponent
  startTail : Option CfiComponent
  endTail : Option CfiComponent
  range : Bool
  spinePos : Int
deriving DecidableEq

/-- Split a bracket assertion into the id part and the side-bias suffix. -/
def parseAssertion (l : List Char) : Option (List Char) × Option Char :=
  match l.reverse with
  | c :: '=' :: 's' :: ';' :: rest =>
    (if rest = [] then none else some rest.reverse, some c)
  | _ => (if l = [] then none else some l, none)

/-- Parse one step: a digit run plus an optional bracket assertion. -/
def parseCfiStep (l : List Char) : Option CfiStep :=
  let digits := l.takeWhile (fun c => c.isDigit)
  let rest := l.dropWhile (fun c => c.isDigit)
  if digits = [] then none
  else
    let n := digitsToNat digits
    let mk := fun (ida : Option (List Char)) (sb : Option Char) =>
      if n % 2 = 0 then CfiStep.mk false ((n : Int) / 2 - 1) ida sb
      else CfiStep.mk true (((n - 1) / 2 : Nat) : Int) ida sb
    match rest with
    | [] => some (mk none none)
    | '[' :: more =>
      match more.reverse with
      | ']' :: mid =>
        let a := parseAssertion mid.reverse
        some (mk a.1 a.2)
      | _ => none
    | _ => none

/-- Parse the step list of a component body that starts with `/`. -/
def parseCfiSteps (main : List Char) (off : Option Int) : Option CfiComponent :=
  match splitOnChar '/' main with
  | [] => none
  | first :: stepStrs =>
    if first ≠ ([] : List Char) then none
    else if stepStrs = [] then none
    else
      match stepStrs.mapM parseCfiStep with
      | some steps => some (CfiComponent.mk steps off)
      | none => none

/-- Parse one component, splitting off a terminal `:offset`. -/
def parseCfiComp (l : List Char) : Option CfiComponent :=
  match splitOnChar ':' l with
  | [main] => parseCfiSteps main none
  | [main, off] =>
    if off ≠ ([] : List Char) ∧ off.all (fun c => c.isDigit) then
      parseCfiSteps main (some ((digitsToNat off : Nat) : Int))
    else none
  | _ => none

/-- Derive `spinePos` from the spine-container step of the first (spine)
component. -/
def spinePosOf (comps : List CfiComponent) : Int :=
  match comps with
  | base :: _ =>
    match base.steps.get? 1 with
    | some st => if st.isText then -1 else st.index
    | none => -1
  | [] => -1

/-- Modelled from the spec: the CFI string grammar of spec section 4.1,
`epubcfi(` PATH (`!` PATH)* (`,` TAIL `,` TAIL)? `)`; assertions are
treated as opaque id checks (this embedding assumes, as in every example
in the spec, that assertions contain no separator characters). -/
def parseCfi (s : String) : Option ParsedCfi :=
  let cs := s.data
  if cs.take 8 ≠ "epubcfi(".data then none
  else
    let inner := cs.drop 8
    match inner.getLast? with
    | some ')' =>
      let body := inner.dropLast
      let go := fun (main : List Char) (st en : Option CfiComponent) (rng : Bool) =>
        match (splitOnChar '!' main).mapM parseCfiComp with
        | some comps => some (ParsedCfi.mk comps st en rng (spinePosOf comps))
        | none => none
      match splitOnChar ',' body with
      | [main] => go main none none false
      | [main, t1, t2] =>
        match parseCfiComp t1, parseCfiComp t2 with
        | some c1, some c2 => go main (some c1) (some c2) true
        | _, _ => none
      | _ => none
    | _ => none

/-- Decimal digits of a natural number. -/
def natToChars (n : Nat) : List Char := Nat.toDigits 10 n

/-- Restringify one step, inverting the even / odd virtual-index
convention and re-emitting the assertion brackets. -/
def cfiStepToChars (st : CfiStep) : List Char :=
  let raw : Nat := if st.isText then 2 * st.index.toNat + 1 else 2 * (st.index + 1).toNat
  let assertion : List Char :=
    match st.idAssert, st.sideBias with
    | none, none => []
    | some ida, none => '[' :: ida ++ [']']
    | none, some c => '[' :: ';' :: 's' :: '=' :: c :: [']']
    | some ida, some c => '[' :: ida ++ ';' :: 's' :: '=' :: c :: [']']
  '/' :: natToChars raw ++ assertion

/-- Restringify one component with its terminal offset. -/
def cfiCompToChars (c : CfiComponent) : List Char :=
  (c.steps.map cfiStepToChars).flatten ++
    (match c.offset with
    | some off => ':' :: natToChars off.toNat
    | none => [])

/-- Join character lists with a separator. -/
def intercalateChars (sep : Char) : List (List Char) → List Char
  | [] => []
  | [x] => x
  | x :: xs => x ++ sep :: intercalateChars sep xs

/-- Modelled from the spec: stringification of a parsed CFI (spec section
6 wire format), re-joining components with `!`, tails with `,`, and
wrapping in `epubcfi(...)`. -/
def cfiToString (p : ParsedCfi) : String :=
  let main := intercalateChars '!' (p.components.map cfiCompToChars)
  let body :=
    match p.startTail, p.endTail with
    | some s, some e => main ++ ',' :: cfiCompToChars s ++ ',' :: cfiCompToChars e
    | _, _ => main
  String.mk ("epubcfi(".data ++ body ++ [')'])

/-- C8 counterexample: parsing the scenario string succeeds but reports
`spinePos = 1`, not 3 — consistent with the repository's documented example
(src/src/spine.js lines 158-168 resolves this very CFI to the spine item
with `index: 1`) and with the even-integer convention of spec section 4.1
applied to the spine-container step `/4`. -/
theorem c8_parse_scenario_cex :
    (parseCfi "epubcfi(/6/4[chap01ref]!/4[body01]/10[para05]/2/1:3)").map ParsedCfi.spinePos ≠
      some 3 := by
  decide

/-- C8 (amended): the scenario string parses without error, the parsed CFI
reports `spinePos = 1`, and `toString` reproduces the input exactly. -/
theorem c8_parse_scenario_amended :
    (parseCfi "epubcfi(/6/4[chap01ref]!/4[body01]/10[para05]/2/1:3)").isSome = true ∧
    (parseCfi "epubcfi(/6/4[chap01ref]!/4[body01]/10[para05]/2/1:3)").map ParsedCfi.spinePos =
      some 1 ∧
    (parseCfi "epubcfi(/6/4[chap01ref]!/4[body01]/10[para05]/2/1:3)").map cfiToString =
      some "epubcfi(/6/4[chap01ref]!/4[body01]/10[para05]/2/1:3)" := by
  refine ⟨rfl, rfl, ?_⟩
  decide
